import Mathlib

/-!
# Verification of the monox workspace orchestration tool

Shallow embedding of the monox/wurk sources (CLI entry, package-manager
detection, dependency-check command, publish command, version command)
together with proofs about the embedded definitions.

Each definition is translated from the corresponding TypeScript source
file; definitions whose doc comment starts with `Modelled from the spec:`
embed behaviour of repository code that is not among the provided sources
(only its callers are) and follow the specification's words instead.
-/

namespace Monox

/-! ## CLI: default iteration method (src/core/cli/src/run.ts)

The `WorkspaceCollection` is constructed with
`defaultIterationMethod: parallel ? 'forEachParallel' : stream ? 'forEachStream' : 'forEachSequential'`.
-/

/-- Translation of the nested conditional expression at run.ts lines
179-183 choosing the collection's `defaultIterationMethod` from the
`--parallel` and `--stream` flags. -/
def defaultIterationMethod (parallel stream : Bool) : String :=
  if parallel then "forEachParallel"
  else if stream then "forEachStream"
  else "forEachSequential"

/-! ## CLI: running-commands re-entry guard (src/core/cli/src/run.ts lines 148-158) -/

/-- Split a character list at every occurrence of `sep`; the result is
always non-empty (an empty input yields one empty part, as JavaScript's
`"".split` yields `[""]`). -/
def splitListOn (sep : Char) : List Char → List (List Char)
  | [] => [[]]
  | c :: rest =>
    match splitListOn sep rest with
    | [] => [[]]
    | h :: t => if c = sep then [] :: h :: t else (c :: h) :: t

/-- Drop leading whitespace of a character list. -/
def wsTrimLeft (l : List Char) : List Char :=
  l.dropWhile Char.isWhitespace

/-- Drop trailing whitespace of a character list. -/
def wsTrimRight (l : List Char) : List Char :=
  (l.reverse.dropWhile Char.isWhitespace).reverse

/-- JavaScript `String.prototype.split` with the separator regex
`/\s*,\s*/u`: the string is cut at every comma, the separator also
consuming the whitespace adjacent to that comma.  Whitespace at the very
start of the string (before the first comma) and at the very end (after
the last comma) is not adjacent to a comma and is kept. -/
def splitCommaWs (s : String) : List String :=
  let parts := splitListOn ',' s.toList
  let n := parts.length
  (parts.enum).map (fun p =>
    let a := if p.1 = 0 then p.2 else wsTrimLeft p.2
    let b := if p.1 + 1 = n then a else wsTrimRight a
    String.mk b)

/-- JavaScript `Array.prototype.join(',')`. -/
def joinComma : List String → String
  | [] => ""
  | [x] => x
  | x :: y :: rest => x ++ "," ++ joinComma (y :: rest)

/-- `env.WURK_RUNNING_COMMANDS?.split(/\s*,\s*/u) ?? []` from run.ts
line 148: an absent environment variable yields the empty list. -/
def runningOf (envRunning : Option String) : List String :=
  match envRunning with
  | none => []
  | some s => splitCommaWs s

/-- Result of the guard at run.ts lines 152-158: either the process
exits with code 0 before the workspace collection is constructed, or the
command name is appended to the environment variable and the action
proceeds (and in particular constructs the collection). -/
structure GuardResult where
  exitCode : Option Nat
  newRunningEnv : Option String
  collectionConstructed : Bool
  deriving DecidableEq, Repr

/-- Translation of run.ts lines 148-158: if the command name is already
among the running commands the process exits with code 0 (before the
workspace collection at line 173 is built); otherwise
`env.WURK_RUNNING_COMMANDS = [...running, commandName].join(',')` and
the action continues. -/
def runningCommandsGuard (envRunning : Option String) (commandName : String) :
    GuardResult :=
  let running := runningOf envRunning
  if running.contains commandName then
    { exitCode := some 0
      newRunningEnv := envRunning
      collectionConstructed := false }
  else
    { exitCode := none
      newRunningEnv := some (joinComma (running ++ [commandName]))
      collectionConstructed := true }

/-! ## Package-manager detection (src/unnamed pm source, `tryCreatePackageManager`) -/

inductive PackageManagerKind where
  | npm
  | pnpm
  | yarn
  deriving DecidableEq, Repr

/-- A JavaScript value as it appears in the loose comparison
`yarnLockExists != null`: the `nodeFs.access(..).then(() => true, () => false)`
promise resolves to a boolean, never to `null`/`undefined`. -/
inductive JsVal where
  | vnull
  | vbool (b : Bool)
  deriving DecidableEq, Repr

/-- JavaScript loose inequality against `null` (`x != null`): false for
`null`/`undefined`, true for every other value, in particular for both
booleans. -/
def jsLooseNeNull : JsVal → Bool
  | .vnull => false
  | .vbool _ => true

/-- The regex `/^[^@]+/u` applied to the `packageManager` field value: a
match is the non-empty longest prefix of characters other than `@`; a
string that is empty or starts with `@` has no match. -/
def pmNameMatch (s : String) : Option String :=
  let p := s.takeWhile (· ≠ '@')
  if p.isEmpty then none else some p

/-- The observable inputs of `tryCreatePackageManager` for one
directory: the parsed `package.json` fields and the lock-file existence
probes. -/
structure PmProbe where
  packageManagerField : Option String
  workspacesFieldExists : Bool
  yarnLockExists : Bool
  pnpmLockExists : Bool
  deriving DecidableEq, Repr

/-- Translation of `tryCreatePackageManager` (pm source lines 22-82):
the `packageManager` field is consulted first; otherwise a `workspaces`
field selects the Yarn/NPM branch, where the source compares the boolean
`yarnLockExists` against `null` (`if (yarnLockExists != null)`); otherwise
a `pnpm-lock.yaml` probe selects Pnpm; otherwise no manager is found. -/
def tryCreatePackageManager (p : PmProbe) :
    Except String (Option PackageManagerKind) :=
  match p.packageManagerField with
  | some field =>
    match pmNameMatch field with
    | none => .error ("invalid package manager \"" ++ field ++ "\"")
    | some name =>
      if name = "npm" then .ok (some .npm)
      else if name = "pnpm" then .ok (some .pnpm)
      else if name = "yarn" then .ok (some .yarn)
      else .error ("unsupported package manager \"" ++ name ++ "\"")
  | none =>
    if p.workspacesFieldExists then
      if jsLooseNeNull (JsVal.vbool p.yarnLockExists) then .ok (some .yarn)
      else .ok (some .npm)
    else
      if p.pnpmLockExists then .ok (some .pnpm)
      else .ok none

/-! ## Publish command, filesystem publisher
(src/commands/publish/src/publishers/filesystem.ts) -/

/-- A semantic version, restricted to release versions
`major.minor.patch` (the versions the publish sources put through the
external npm `semver` library). -/
structure Semver where
  major : Nat
  minor : Nat
  patch : Nat
  deriving DecidableEq, Repr

/-- Lexicographic order on versions. -/
def Semver.leb (a b : Semver) : Bool :=
  if a.major ≠ b.major then a.major < b.major
  else if a.minor ≠ b.minor then a.minor < b.minor
  else a.patch ≤ b.patch

/-- Parse a non-empty all-digit character list. -/
def parseNatDigits (l : List Char) : Option Nat :=
  if l.isEmpty ∨ ¬ l.all Char.isDigit then none
  else some (l.foldl (fun acc c => acc * 10 + (c.toNat - '0'.toNat)) 0)

/-- Parse `a.b.c` from a character list. -/
def parseSemverChars (l : List Char) : Option Semver :=
  match splitListOn '.' l with
  | [a, b, c] =>
    match parseNatDigits a, parseNatDigits b, parseNatDigits c with
    | some ma, some mi, some pa => some ⟨ma, mi, pa⟩
    | _, _, _ => none
  | _ => none

/-- Model of `semver.satisfies` of the external npm semver library,
restricted to release versions and the range forms `*`/`x` (any),
`^a.b.c` (caret) and an exact version `a.b.c`. -/
def semverSatisfies (v : Semver) (range : String) : Bool :=
  if range = "*" ∨ range = "x" then true
  else
    match range.toList with
    | '^' :: rest =>
      match parseSemverChars rest with
      | none => false
      | some base =>
        Semver.leb base v &&
          (if base.major ≠ 0 then v.major == base.major
           else if base.minor ≠ 0 then v.major == 0 && v.minor == base.minor
           else v == base)
    | chars =>
      match parseSemverChars chars with
      | none => false
      | some w => v == w

/-- Model of `semver.minVersion` of the external npm semver library on
the same restricted range forms. -/
def semverMinVersion (range : String) : Option Semver :=
  if range = "*" ∨ range = "x" then some ⟨0, 0, 0⟩
  else
    match range.toList with
    | '^' :: rest => parseSemverChars rest
    | chars => parseSemverChars chars

/-- The parsed dependency specifier of a workspace link
(`spec.type` is `'npm'`, `'tag'` or `'url'`; url specs carry a
protocol). -/
inductive DepSpec where
  | npm (name : String) (range : String)
  | tag (t : String)
  | url (protocol : String)
  deriving DecidableEq, Repr

/-- The `dependency` workspace of a `WorkspaceLink`, with the git facts
`validateDependency` queries about its directory. -/
structure DepTarget where
  name : String
  version : Option Semver
  isPrivate : Bool
  gitIsDirty : Bool
  gitHead : Option String
  deriving DecidableEq, Repr

/-- One entry of `getDependencyLinks()`. -/
structure WorkspaceLink where
  type : String
  id : String
  spec : DepSpec
  dependency : DepTarget
  deriving DecidableEq, Repr

/-- The external collaborators `publishFromFilesystem` consults: the
package-manager registry metadata, the optional git collaborator, the
`published` set accumulated by the publish command, and the outcome of
the `npm pack`/`npm publish` spawn. -/
structure PublishEnv where
  metadataExists : String → Semver → Bool
  metaGitHead : String → Option String
  gitPresent : Bool
  publishedNames : List String
  toArchive : Bool
  spawnPublishOk : Bool

/-- How `validateDependency` classified a dependency link when it
returned normally. -/
inductive DepOutcome where
  | skippedDevDependencies
  | externalTag
  | externalUrl
  | externalUnsatisfiedRange
  | localValidated
  deriving DecidableEq, Repr

/-- Outcomes on which the dependency entry was treated as external
(an early `return` before the local-dependency checks). -/
def DepOutcome.isExternal : DepOutcome → Bool
  | .externalTag => true
  | .externalUrl => true
  | .externalUnsatisfiedRange => true
  | _ => false

/-- Translation of `validateDependency` (filesystem.ts lines 189-273):
dev dependencies are skipped; tag specs and non-file url specs are
external; file urls, unversioned or private dependency workspaces throw;
an unsatisfied range is external (normal return); a satisfied
non-wildcard range whose min-version differs from the dependency's
version throws; otherwise the dependency is local and the
published-set / registry-metadata / git-head checks run (warnings are
not modelled; they have no observable effect here). -/
def validateDependency (env : PublishEnv) (link : WorkspaceLink) :
    Except String DepOutcome :=
  if link.type = "devDependencies" then .ok .skippedDevDependencies
  else
    match link.spec with
    | .tag _ => .ok .externalTag
    | .url protocol =>
      if protocol ≠ "file" then .ok .externalUrl
      else .error ("dependency \"" ++ link.dependency.name ++ "\" is local path")
    | .npm _ range =>
      match link.dependency.version with
      | none =>
        .error ("dependency \"" ++ link.dependency.name ++ "\" is unversioned")
      | some v =>
        if link.dependency.isPrivate then
          .error ("dependency \"" ++ link.dependency.name ++ "\" is private")
        else if ¬ semverSatisfies v range then .ok .externalUnsatisfiedRange
        else if range ≠ "*" ∧ range ≠ "x" ∧ semverMinVersion range ≠ some v then
          .error ("dependency \"" ++ link.dependency.name
            ++ "\" min-version does not match workspace version")
        else if link.dependency.name ∈ env.publishedNames then .ok .localValidated
        else if ¬ env.metadataExists link.dependency.name v then
          .error ("dependency \"" ++ link.dependency.name
            ++ "\" version is not published")
        else if env.gitPresent then
          if link.dependency.gitIsDirty then
            .error ("dependency \"" ++ link.dependency.name
              ++ "\" has uncommitted changes")
          else
            match env.metaGitHead link.dependency.name with
            | some metaHead =>
              match link.dependency.gitHead with
              | some head =>
                if head ≠ metaHead then
                  .error ("dependency \"" ++ link.dependency.name
                    ++ "\" Git head does not match published head")
                else .ok .localValidated
              | none => .ok .localValidated
            | none => .ok .localValidated
        else .ok .localValidated

/-- The `for (const link of getDependencyLinks())` loop of `validate`:
the first dependency-validation error aborts the loop. -/
def firstDependencyError (env : PublishEnv) : List WorkspaceLink → Option String
  | [] => none
  | link :: rest =>
    match validateDependency env link with
    | .error e => some e
    | .ok _ => firstDependencyError env rest

/-- The workspace being published, as `publishFromFilesystem` observes
it.  `diskPackageJson` is the current on-disk `package.json` text (the
in-memory `config` mutations before the save do not touch the disk);
`missingEntrypoints` abstracts the `npm pack --dry-run` entry-point
filter (path matching) to its resulting emptiness check. -/
structure PubWorkspace where
  name : String
  version : Option Semver
  isPrivate : Bool
  gitIsDirty : Bool
  missingEntrypoints : Bool
  dependencyLinks : List WorkspaceLink
  diskPackageJson : Option String
  configRendered : String
  deriving Repr

/-- Per-workspace observable publish state: the sequence of
`status.set` calls, whether the workspace was added to the `published`
set, and the on-disk `package.json` text. -/
structure PubState where
  statusLog : List (String × Option String)
  published : Bool
  disk : Option String
  deriving DecidableEq, Repr

/-- Render a version as npm prints it. -/
def Semver.render (v : Semver) : String :=
  toString v.major ++ "." ++ toString v.minor ++ "." ++ toString v.patch

/-- Translation of `publishFromFilesystem` together with its `validate`
helper (filesystem.ts lines 26-187): status `pending` on entry; the
three skip cases (`private`, `unversioned`, `already published`); the
throwing validations (dirty git tree, missing packed entry points,
dependency validation); then the temporary manifest write, the
pack/publish spawn inside `try`, the `finally` restore of the saved
text, and on success the `published` insertion and the `success`
status.  The changelog check only warns and the in-memory config
mutations never touch the disk, so neither appears in the state. -/
def publishFromFilesystem (env : PublishEnv) (w : PubWorkspace) :
    Except String Unit × PubState :=
  let st0 : PubState :=
    { statusLog := [("pending", none)], published := false, disk := w.diskPackageJson }
  if w.isPrivate then
    (.ok (), { st0 with statusLog := st0.statusLog ++ [("skipped", some "private")] })
  else
    match w.version with
    | none =>
      (.ok (), { st0 with statusLog := st0.statusLog ++ [("skipped", some "unversioned")] })
    | some v =>
      if env.metadataExists w.name v then
        (.ok (), { st0 with
          statusLog := st0.statusLog ++ [("skipped", some "already published")] })
      else if env.gitPresent ∧ w.gitIsDirty then
        (.error "workspace has uncommitted changes", st0)
      else if w.missingEntrypoints then
        (.error "missing packed entry points", st0)
      else
        match firstDependencyError env w.dependencyLinks with
        | some e => (.error e, st0)
        | none =>
          match w.diskPackageJson with
          | none => (.error "failed to read package.json file", st0)
          | some saved =>
            if saved = "" then (.error "failed to read package.json file", st0)
            else if env.spawnPublishOk then
              let detail := (if env.toArchive then "pack " else "publish ") ++ v.render
              (.ok (), { statusLog := st0.statusLog ++ [("success", some detail)]
                         published := true
                         disk := some saved })
            else
              (.error "npm publish failed", { st0 with disk := some saved })

/-- The `Except` result of a filesystem publish. -/
def publishResult (env : PublishEnv) (w : PubWorkspace) : Except String Unit :=
  (publishFromFilesystem env w).1

/-- The observable state after a filesystem publish. -/
def publishState (env : PublishEnv) (w : PubWorkspace) : PubState :=
  (publishFromFilesystem env w).2

end Monox

namespace Monox

/-! ## Dependency-check command (src/unnamed dep-check command source) -/

/-- One workspace as the dependency-check `each` hook observes it.
`declaredDependencies` are the keys of the merged `dependencies`,
`peerDependencies` and `optionalDependencies` sections.
`unusedAfterScan` abstracts the source-file import scan (its
`DependencySet` helper is not among the sources): it holds the declared
dependency names that no source file was found to use.  `npmRemoveOk`
is the outcome of this workspace's `npm remove` spawn under `--fix`. -/
structure DepCheckWorkspace where
  name : String
  isRoot : Bool
  isSelected : Bool
  declaredDependencies : List String
  unusedAfterScan : List String
  npmRemoveOk : Bool
  deriving DecidableEq, Repr

/-- Module-level mutable state of the dependency-check command: the
workspaces whose `npm remove` has been linked onto the shared
`npmUpdatePromise` (in chain order), the `isFailed` flag, and the
process exit code (0 = unset). -/
structure DepCheckState where
  chain : List String
  isFailed : Bool
  exitCode : Nat
  deriving DecidableEq, Repr

/-- Translation of the dependency-check `each` hook (dep-check source
lines 18-111).  Unselected workspaces return immediately; otherwise the
status is `pending` and then: `success`/`no dependencies` when nothing
is declared, `success` when everything is used, and for unused
dependencies either (without `--fix`) status `failure` plus the
`isFailed` flag with a plain `return` — no throw — or (with `--fix`) a
removal appended to the shared promise chain, whose spawn uses
`errorReturn`/`errorSetExitCode` (a failing `npm remove` sets the exit
code instead of rejecting), followed by status `success`/`fixed`.
Returned are the hook result, the final status set for this workspace
(`none` when unselected), and the updated module state. -/
def depCheckEach (fix : Bool) (st : DepCheckState) (w : DepCheckWorkspace) :
    Except String Unit × Option (String × Option String) × DepCheckState :=
  if w.isSelected = false then (.ok (), none, st)
  else if w.declaredDependencies.isEmpty then
    (.ok (), some ("success", some "no dependencies"), st)
  else if w.unusedAfterScan.isEmpty then
    (.ok (), some ("success", none), st)
  else if fix = false then
    (.ok (), some ("failure", none), { st with isFailed := true })
  else
    (.ok (), some ("success", some "fixed"),
      { st with
        chain := st.chain ++ [w.name]
        exitCode := if w.npmRemoveOk then st.exitCode
          else if st.exitCode = 0 then 1 else st.exitCode })

/-- The status the `each` hook records for one workspace when `--fix`
is off — a function of that workspace alone. -/
def depCheckStatusNoFix (w : DepCheckWorkspace) : Option (String × Option String) :=
  if w.isSelected = false then none
  else if w.declaredDependencies.isEmpty then some ("success", some "no dependencies")
  else if w.unusedAfterScan.isEmpty then some ("success", none)
  else some ("failure", none)

/-- Whether a workspace makes the no-`--fix` run fail: selected, with
declared dependencies, some of which the scan left unused. -/
def depCheckFails (w : DepCheckWorkspace) : Bool :=
  w.isSelected && !w.declaredDependencies.isEmpty && !w.unusedAfterScan.isEmpty

/-- The werk command runner's per-workspace wrapper
(packages/werk command.ts lines 96-112): a rejection of the `each` hook
is caught, logged and converted into `process.exitCode ||= 1`, so the
iteration continues with the remaining workspaces. -/
def runEach (fix : Bool) (st : DepCheckState) (w : DepCheckWorkspace) :
    Option (String × Option String) × DepCheckState :=
  match depCheckEach fix st w with
  | (.ok _, status, st1) => (status, st1)
  | (.error _, status, st1) =>
    (status, { st1 with exitCode := if st1.exitCode = 0 then 1 else st1.exitCode })

/-- Run the `each` hook over every workspace in order, collecting each
workspace's recorded status. -/
def runEachAll (fix : Bool) (st : DepCheckState) :
    List DepCheckWorkspace → List (Option (String × Option String)) × DepCheckState
  | [] => ([], st)
  | w :: rest =>
    let r := runEach fix st w
    let rs := runEachAll fix r.2 rest
    (r.1 :: rs.1, rs.2)

/-- Translation of the `after` hook (dep-check source lines 112-121):
`process.exitCode ||= 1` when any workspace failed; otherwise the exit
code is untouched. -/
def depCheckAfter (st : DepCheckState) : DepCheckState :=
  if st.isFailed then
    { st with exitCode := if st.exitCode = 0 then 1 else st.exitCode }
  else st

/-! ### The shared npm-remove promise chain (dep-check source lines 8, 91-107) -/

/-- Result of a settled JavaScript promise. -/
inductive PResult where
  | resolved
  | rejected (e : String)
  deriving DecidableEq, Repr

/-- The shape of the module-level `npmUpdatePromise`: it starts as
`Promise.resolve()` and each `--fix` workspace replaces the chain `p`
by `p.catch(() => {}).then(<removal>)`. -/
inductive PromiseChain where
  | start
  | thenRemoval (p : PromiseChain) (w : String)
  | catchIgnore (p : PromiseChain)
  deriving DecidableEq, Repr

/-- Executed removals (in execution order) and the final settlement of
a promise chain, given each workspace's removal outcome.  A `.then`
callback runs only when its antecedent resolved; `.catch(() => {})`
converts any rejection into resolution, which is exactly how a failure
of an earlier removal is swallowed instead of being re-thrown into a
later one. -/
def execChain (outcome : String → PResult) : PromiseChain → List String × PResult
  | .start => ([], .resolved)
  | .thenRemoval p w =>
    match execChain outcome p with
    | (l, .resolved) => (l ++ [w], outcome w)
    | (l, .rejected e) => (l, .rejected e)
  | .catchIgnore p => ((execChain outcome p).1, .resolved)

/-- The chain the dependency-check command builds when the `--fix`
workspaces reach the chain-extension statement in the given order. -/
def npmUpdateChain (arrivals : List String) : PromiseChain :=
  arrivals.foldl (fun p w => .thenRemoval (.catchIgnore p) w) .start

/-- Sequential schedule of the executed removals: each removal starts
at the instant its predecessor settles (it awaits the chain), yielding
one `(workspace, start, settle)` interval per removal. -/
def removalIntervals (dur : String → Nat) : List String → Nat → List (String × Nat × Nat)
  | [], _ => []
  | w :: rest, t => (w, t, t + dur w) :: removalIntervals dur rest (t + dur w)

/-! ## Workspace selection (spec-modelled) and the CLI default selection
(src/core/cli/src/run.ts lines 132-147 and 196) -/

/-- A workspace as the Selector sees it.  `attrMatches e` abstracts
whether a (non-wildcard) expression `e` matches the workspace's name,
keyword list, directory glob or privacy flag. -/
structure SelWorkspace where
  name : String
  isRoot : Bool
  attrMatches : String → Bool

/-- Modelled from the spec: whether a selection expression matches a
workspace.  The wildcard expression `**` matches every non-root
workspace; the root workspace is a match target only when the
`includeRootWorkspace` option was enabled at collection construction,
and is otherwise never matched. -/
def exprMatches (includeRootWorkspace : Bool) (w : SelWorkspace) (e : String) : Bool :=
  if w.isRoot && !includeRootWorkspace then false
  else if e = "**" then true
  else w.attrMatches e

/-- Modelled from the spec: `select(expressions)` replaces the selected
set with the workspaces matching any of the expressions (OR
semantics). -/
def selectWorkspaces (includeRootWorkspace : Bool) (workspaces : List SelWorkspace)
    (exprs : List String) : List SelWorkspace :=
  workspaces.filter (fun w => exprs.any (exprMatches includeRootWorkspace w))

/-- Translation of run.ts lines 133-136: the `--workspace` option
values when present, the `WURK_WORKSPACE_EXPRESSIONS` environment
fallback otherwise. -/
def cliEffectiveExpressions (optionExpressions : Option (List String))
    (envExpressions : List String) : List String :=
  match optionExpressions with
  | some es => es
  | none => envExpressions

/-- Translation of run.ts line 196:
`workspaces.select(expressions.length ? expressions : '**')`. -/
def cliSelectArgument (expressions : List String) : List String :=
  if expressions.length ≠ 0 then expressions else ["**"]

/-! ## Version command (src/commands/version/src/command.ts) over the
spec-modelled workspace collection -/

/-- A workspace as the version command's re-selection phase observes
it: `isModified` is `workspace.config.isModified` after the bump phase
applied its changes, and `gitDirty` is `git.getIsDirty()`. -/
structure VersionWorkspace where
  id : Nat
  isModified : Bool
  gitDirty : Bool
  deriving DecidableEq, Repr

/-- Modelled from the spec: the workspace collection as the version
command mutates it — per-workspace `isSelected` flags (the anchor set),
both closure toggles, and the two adjacency directions. -/
structure VersionCollection where
  workspaces : List VersionWorkspace
  anchor : List Nat
  dependenciesOf : Nat → List Nat
  dependentsOf : Nat → List Nat
  includeDependenciesOn : Bool
  includeDependentsOn : Bool

/-- One expansion step of a transitive closure over the node set `ids`:
add every node with an edge from a member. -/
def stepClosure (adj : Nat → List Nat) (ids : List Nat) (s : List Nat) : List Nat :=
  s ++ ids.filter (fun v => decide (v ∉ s) && decide (∃ u ∈ s, v ∈ adj u))

/-- Iterate the expansion step; `ids.length` rounds reach the full
transitive closure on a finite node set. -/
def closureIter (adj : Nat → List Nat) (ids : List Nat) : Nat → List Nat → List Nat
  | 0, s => s
  | n + 1, s => closureIter adj ids n (stepClosure adj ids s)

/-- The node ids of a collection. -/
def collIds (c : VersionCollection) : List Nat :=
  c.workspaces.map VersionWorkspace.id

/-- Modelled from the spec: a workspace is selected iff it is in the
anchor set, or an enabled closure toggle reaches it from the anchor set
along its own edge direction. -/
def isSelectedIn (c : VersionCollection) (i : Nat) : Bool :=
  decide (i ∈ c.anchor)
  || (c.includeDependenciesOn
      && decide (i ∈ closureIter c.dependenciesOf (collIds c) (collIds c).length c.anchor))
  || (c.includeDependentsOn
      && decide (i ∈ closureIter c.dependentsOf (collIds c) (collIds c).length c.anchor))

/-- Modelled from the spec: `includeDependents(enabled)` toggles the
dependents-closure flag. -/
def includeDependents (c : VersionCollection) (enabled : Bool) : VersionCollection :=
  { c with includeDependentsOn := enabled }

/-- Modelled from the spec: `includeDependencies(enabled)` toggles the
dependencies-closure flag. -/
def includeDependencies (c : VersionCollection) (enabled : Bool) : VersionCollection :=
  { c with includeDependenciesOn := enabled }

/-- Modelled from the spec: a direct `workspace.isSelected = b`
assignment edits that workspace's flag, i.e. its anchor membership. -/
def setFlag (c : VersionCollection) (i : Nat) (b : Bool) : VersionCollection :=
  if b then
    { c with anchor := if i ∈ c.anchor then c.anchor else c.anchor ++ [i] }
  else
    { c with anchor := c.anchor.filter (fun j => j != i) }

/-- One workspace of the version command's re-selection `forEach`
(command.ts lines 128-142), iterating the selection of the snapshot
collection `c1`: a dirty git tree throws (recorded by the scheduler as
a `failure` status, leaving the flag untouched); otherwise the flag is
recomputed from `config.isModified`, recording status
`skipped`/`no modifications` for unmodified workspaces. -/
def versionPhase2Step (c1 : VersionCollection)
    (acc : VersionCollection × List (Nat × String × Option String))
    (w : VersionWorkspace) : VersionCollection × List (Nat × String × Option String) :=
  if isSelectedIn c1 w.id then
    if w.gitDirty then
      (acc.1, acc.2 ++ [(w.id, "failure", some "versioning requires a clean git repository")])
    else if w.isModified then (setFlag acc.1 w.id true, acc.2)
    else (setFlag acc.1 w.id false, acc.2 ++ [(w.id, "skipped", some "no modifications")])
  else acc

/-- The re-selection `forEach` over all workspaces. -/
def versionPhase2 (c1 : VersionCollection) :
    VersionCollection × List (Nat × String × Option String) :=
  c1.workspaces.foldl (versionPhase2Step c1) (c1, [])

/-- Translation of the version command's selection lifecycle
(command.ts lines 70-151): enable the dependents closure (line 77),
recompute every iterated workspace's flag from `config.isModified`
(lines 128-142; the bump `forEach` at lines 115-124 only edits configs,
which `isModified` reflects), then disable both closures (lines
145-146).  The subsequent write phase iterates the selection of the
returned collection. -/
def versionCommandSelectionPhases (c0 : VersionCollection) :
    VersionCollection × List (Nat × String × Option String) :=
  let c1 := includeDependents c0 true
  let r2 := versionPhase2 c1
  let c3 := includeDependents (includeDependencies r2.1 false) false
  (c3, r2.2)

end Monox

namespace Monox

/-! ## Theorems for C1, C8, C10 -/

/-- **C1**: the collection's `defaultIterationMethod` is
`'forEachParallel'` when the parallel flag is set, `'forEachStream'`
when the stream flag is set and parallel is not, and
`'forEachSequential'` when neither flag is set; `--parallel` takes
precedence over `--stream`. -/
theorem cli_default_iteration_method (parallel stream : Bool) :
    (parallel = true →
      defaultIterationMethod parallel stream = "forEachParallel")
    ∧ (parallel = false → stream = true →
      defaultIterationMethod parallel stream = "forEachStream")
    ∧ (parallel = false → stream = false →
      defaultIterationMethod parallel stream = "forEachSequential") := by
  cases parallel <;> cases stream <;> simp [defaultIterationMethod]

/-- Witness for C1 at the concrete flags `--parallel --stream`: parallel
wins. -/
theorem cli_default_iteration_method_witness :
    defaultIterationMethod true true = "forEachParallel" :=
  (cli_default_iteration_method true true).1 rfl

/-- **C8**: when `package.json` has no `packageManager` field but has a
`workspaces` field, `tryCreatePackageManager` returns Yarn for both
values of the yarn.lock existence probe (the boolean is compared against
`null`, which both `true` and `false` satisfy), so the NPM fallback
branch is unreachable. -/
theorem pm_detection_workspaces_always_yarn (p : PmProbe)
    (hfield : p.packageManagerField = none)
    (hws : p.workspacesFieldExists = true) :
    tryCreatePackageManager p = .ok (some .yarn)
    ∧ tryCreatePackageManager p ≠ .ok (some .npm) := by
  constructor
  · simp [tryCreatePackageManager, hfield, hws, jsLooseNeNull]
  · simp [tryCreatePackageManager, hfield, hws, jsLooseNeNull]

/-- Witness for C8: a directory whose `package.json` has a `workspaces`
field, no `packageManager` field, and **no** yarn.lock file still yields
Yarn. -/
theorem pm_detection_workspaces_always_yarn_witness :
    tryCreatePackageManager
      { packageManagerField := none
        workspacesFieldExists := true
        yarnLockExists := false
        pnpmLockExists := false } = .ok (some .yarn) :=
  (pm_detection_workspaces_always_yarn
    { packageManagerField := none
      workspacesFieldExists := true
      yarnLockExists := false
      pnpmLockExists := false } rfl rfl).1

/-- **C10**: if the command name already appears in the comma-separated
`WURK_RUNNING_COMMANDS` environment variable the CLI action exits with
code 0 before constructing the workspace collection; otherwise the name
is appended to that variable (comma-joined) and the action proceeds. -/
theorem cli_running_commands_guard (envRunning : Option String)
    (commandName : String) :
    ((runningOf envRunning).contains commandName = true →
      runningCommandsGuard envRunning commandName =
        { exitCode := some 0
          newRunningEnv := envRunning
          collectionConstructed := false })
    ∧ ((runningOf envRunning).contains commandName = false →
      runningCommandsGuard envRunning commandName =
        { exitCode := none
          newRunningEnv := some (joinComma (runningOf envRunning ++ [commandName]))
          collectionConstructed := true }) := by
  constructor
  · intro h
    simp only [runningCommandsGuard]
    rw [h]
    simp
  · intro h
    simp only [runningCommandsGuard]
    rw [h]
    simp

/-- Witness for C10: with `WURK_RUNNING_COMMANDS="build, test"` the
command `test` exits with code 0 before the collection is constructed,
while the command `publish` proceeds and the variable becomes
`"build,test,publish"`. -/
theorem cli_running_commands_guard_witness :
    runningCommandsGuard (some "build, test") "test" =
      { exitCode := some 0
        newRunningEnv := some "build, test"
        collectionConstructed := false }
    ∧ runningCommandsGuard (some "build, test") "publish" =
      { exitCode := none
        newRunningEnv := some "build,test,publish"
        collectionConstructed := true } :=
  ⟨(cli_running_commands_guard (some "build, test") "test").1 (by decide),
   (cli_running_commands_guard (some "build, test") "publish").2 (by decide)⟩

end Monox

namespace Monox

/-! ## Theorems for C3, C7, C9 -/

/-- Helper: exhaustive enumeration of the observable outcomes of
`publishFromFilesystem` — the disk text is always preserved, and the
run ends in exactly one of: skip `private`, skip `unversioned`, skip
`already published`, a thrown error with the status still `pending`, or
a completed publish with status `success`. -/
lemma publish_outcomes (env : PublishEnv) (w : PubWorkspace) :
    (publishState env w).disk = w.diskPackageJson
    ∧ ((w.isPrivate = true
        ∧ publishResult env w = .ok ()
        ∧ (publishState env w).statusLog
            = [("pending", none), ("skipped", some "private")]
        ∧ (publishState env w).published = false)
      ∨ (w.isPrivate = false ∧ w.version = none
        ∧ publishResult env w = .ok ()
        ∧ (publishState env w).statusLog
            = [("pending", none), ("skipped", some "unversioned")]
        ∧ (publishState env w).published = false)
      ∨ (∃ v, w.isPrivate = false ∧ w.version = some v
        ∧ env.metadataExists w.name v = true
        ∧ publishResult env w = .ok ()
        ∧ (publishState env w).statusLog
            = [("pending", none), ("skipped", some "already published")]
        ∧ (publishState env w).published = false)
      ∨ (∃ v e, w.isPrivate = false ∧ w.version = some v
        ∧ env.metadataExists w.name v = false
        ∧ publishResult env w = .error e
        ∧ (publishState env w).statusLog = [("pending", none)]
        ∧ (publishState env w).published = false)
      ∨ (∃ v, w.isPrivate = false ∧ w.version = some v
        ∧ env.metadataExists w.name v = false
        ∧ env.spawnPublishOk = true
        ∧ publishResult env w = .ok ()
        ∧ (publishState env w).statusLog
            = [("pending", none),
               ("success",
                some ((if env.toArchive then "pack " else "publish ")
                  ++ v.render))]
        ∧ (publishState env w).published = true)) := by
  by_cases hp : w.isPrivate = true
  · have h : publishFromFilesystem env w =
        (.ok (), { statusLog := [("pending", none), ("skipped", some "private")]
                   published := false
                   disk := w.diskPackageJson }) := by
      simp [publishFromFilesystem, hp]
    refine ⟨?_, Or.inl ⟨hp, ?_, ?_, ?_⟩⟩ <;> simp [publishResult, publishState, h]
  · have hp' : w.isPrivate = false := by simpa using hp
    cases hv : w.version with
    | none =>
      have h : publishFromFilesystem env w =
          (.ok (), { statusLog := [("pending", none), ("skipped", some "unversioned")]
                     published := false
                     disk := w.diskPackageJson }) := by
        simp [publishFromFilesystem, hp', hv]
      refine ⟨?_, Or.inr (Or.inl ⟨hp', rfl, ?_, ?_, ?_⟩)⟩ <;>
        simp [publishResult, publishState, h]
    | some v =>
      by_cases hm : env.metadataExists w.name v = true
      · have h : publishFromFilesystem env w =
            (.ok (), { statusLog :=
                         [("pending", none), ("skipped", some "already published")]
                       published := false
                       disk := w.diskPackageJson }) := by
          simp [publishFromFilesystem, hp', hv, hm]
        refine ⟨?_, Or.inr (Or.inr (Or.inl ⟨v, hp', rfl, hm, ?_, ?_, ?_⟩))⟩ <;>
          simp [publishResult, publishState, h]
      · have hm' : env.metadataExists w.name v = false := by simpa using hm
        by_cases hg : env.gitPresent ∧ w.gitIsDirty
        · have h : publishFromFilesystem env w =
              (.error "workspace has uncommitted changes",
               { statusLog := [("pending", none)]
                 published := false
                 disk := w.diskPackageJson }) := by
            simp [publishFromFilesystem, hp', hv, hm', hg]
          refine ⟨?_, Or.inr (Or.inr (Or.inr (Or.inl
            ⟨v, "workspace has uncommitted changes", hp', rfl, hm', ?_, ?_, ?_⟩)))⟩ <;>
            simp [publishResult, publishState, h]
        · by_cases he : w.missingEntrypoints = true
          · have h : publishFromFilesystem env w =
                (.error "missing packed entry points",
                 { statusLog := [("pending", none)]
                   published := false
                   disk := w.diskPackageJson }) := by
              simp [publishFromFilesystem, hp', hv, hm', hg, he]
            refine ⟨?_, Or.inr (Or.inr (Or.inr (Or.inl
              ⟨v, "missing packed entry points", hp', rfl, hm', ?_, ?_, ?_⟩)))⟩ <;>
              simp [publishResult, publishState, h]
          · have he' : w.missingEntrypoints = false := by simpa using he
            cases hd : firstDependencyError env w.dependencyLinks with
            | some e =>
              have h : publishFromFilesystem env w =
                  (.error e,
                   { statusLog := [("pending", none)]
                     published := false
                     disk := w.diskPackageJson }) := by
                simp [publishFromFilesystem, hp', hv, hm', hg, he', hd]
              refine ⟨?_, Or.inr (Or.inr (Or.inr (Or.inl
                ⟨v, e, hp', rfl, hm', ?_, ?_, ?_⟩)))⟩ <;>
                simp [publishResult, publishState, h]
            | none =>
              cases hdisk : w.diskPackageJson with
              | none =>
                have h : publishFromFilesystem env w =
                    (.error "failed to read package.json file",
                     { statusLog := [("pending", none)]
                       published := false
                       disk := w.diskPackageJson }) := by
                  simp [publishFromFilesystem, hp', hv, hm', hg, he', hd, hdisk]
                refine ⟨?_, Or.inr (Or.inr (Or.inr (Or.inl
                  ⟨v, "failed to read package.json file", hp', rfl, hm', ?_, ?_, ?_⟩)))⟩ <;>
                  simp [publishResult, publishState, h, hdisk]
              | some saved =>
                by_cases hs : saved = ""
                · have h : publishFromFilesystem env w =
                      (.error "failed to read package.json file",
                       { statusLog := [("pending", none)]
                         published := false
                         disk := w.diskPackageJson }) := by
                    simp [publishFromFilesystem, hp', hv, hm', hg, he', hd, hdisk, hs]
                  refine ⟨?_, Or.inr (Or.inr (Or.inr (Or.inl
                    ⟨v, "failed to read package.json file", hp', rfl, hm', ?_, ?_, ?_⟩)))⟩ <;>
                    simp [publishResult, publishState, h, hdisk]
                · by_cases hok : env.spawnPublishOk = true
                  · have h : publishFromFilesystem env w =
                        (.ok (), { statusLog := [("pending", none), ("success", some ((if env.toArchive then "pack " else "publish ") ++ v.render))]
                                   published := true
                                   disk := some saved }) := by
                      simp [publishFromFilesystem, hp', hv, hm', hg, he', hd, hdisk, hs, hok]
                    refine ⟨?_, Or.inr (Or.inr (Or.inr (Or.inr
                      ⟨v, hp', rfl, hm', hok, ?_, ?_, ?_⟩)))⟩ <;>
                      simp [publishResult, publishState, h, hdisk]
                  · have hok' : env.spawnPublishOk = false := by simpa using hok
                    have h : publishFromFilesystem env w =
                        (.error "npm publish failed",
                         { statusLog := [("pending", none)]
                           published := false
                           disk := some saved }) := by
                      simp [publishFromFilesystem, hp', hv, hm', hg, he', hd, hdisk, hs, hok']
                    refine ⟨?_, Or.inr (Or.inr (Or.inr (Or.inl
                      ⟨v, "npm publish failed", hp', rfl, hm', ?_, ?_, ?_⟩)))⟩ <;>
                      simp [publishResult, publishState, h, hdisk]

end Monox

namespace Monox

/-- **C7**: filesystem publish sets status `pending` on entry; it then
skips (without publishing) with detail `private` for a private
workspace, `unversioned` for an unversioned one, `already published`
when registry metadata exists for its name and version — and a
`skipped` status arises in no other case; a completed publish ends with
status `success`. -/
theorem publish_status_three_skip_cases (env : PublishEnv) (w : PubWorkspace) :
    (publishState env w).statusLog.head? = some ("pending", none)
    ∧ (w.isPrivate = true →
        (publishState env w).statusLog
          = [("pending", none), ("skipped", some "private")])
    ∧ (w.isPrivate = false → w.version = none →
        (publishState env w).statusLog
          = [("pending", none), ("skipped", some "unversioned")])
    ∧ (∀ v, w.version = some v → w.isPrivate = false →
        env.metadataExists w.name v = true →
        (publishState env w).statusLog
          = [("pending", none), ("skipped", some "already published")])
    ∧ (∀ d, ("skipped", d) ∈ (publishState env w).statusLog →
        d = some "private" ∨ d = some "unversioned" ∨ d = some "already published")
    ∧ ((publishState env w).published = true →
        ∃ d, (publishState env w).statusLog
          = [("pending", none), ("success", some d)]) := by
  obtain ⟨hdisk, hcases⟩ := publish_outcomes env w
  rcases hcases with ⟨hp, hres, hlog, hpub⟩ | ⟨hp, hv, hres, hlog, hpub⟩
    | ⟨v, hp, hv, hm, hres, hlog, hpub⟩ | ⟨v, e, hp, hv, hm, hres, hlog, hpub⟩
    | ⟨v, hp, hv, hm, hok, hres, hlog, hpub⟩ <;>
    refine ⟨?_, ?_, ?_, ?_, ?_, ?_⟩ <;> simp_all

/-- Witness for C7: a concrete private workspace is skipped with detail
`private` after the initial `pending`. -/
theorem publish_status_three_skip_cases_witness :
    (publishState ⟨fun _ _ => false, fun _ => none, false, [], false, true⟩
        ⟨"pkg-a", some ⟨1, 0, 0⟩, true, false, false, [], some "{}", "{}"⟩).statusLog
      = [("pending", none), ("skipped", some "private")] :=
  (publish_status_three_skip_cases
    ⟨fun _ _ => false, fun _ => none, false, [], false, true⟩
    ⟨"pkg-a", some ⟨1, 0, 0⟩, true, false, false, [], some "{}", "{}"⟩).2.1 rfl

/-- **C9**: filesystem publish always leaves the on-disk `package.json`
text as it was before its temporary mutations (the `finally` restore),
whether the pack/publish spawn succeeds or throws; the `published` set
and the `success` status are updated only when the spawn succeeds. -/
theorem publish_restores_manifest (env : PublishEnv) (w : PubWorkspace) :
    (publishState env w).disk = w.diskPackageJson
    ∧ ((publishState env w).published = true →
        env.spawnPublishOk = true ∧ publishResult env w = .ok ())
    ∧ (env.spawnPublishOk = false →
        (publishState env w).published = false
        ∧ ∀ d, ("success", d) ∉ (publishState env w).statusLog) := by
  obtain ⟨hdisk, hcases⟩ := publish_outcomes env w
  rcases hcases with ⟨hp, hres, hlog, hpub⟩ | ⟨hp, hv, hres, hlog, hpub⟩
    | ⟨v, hp, hv, hm, hres, hlog, hpub⟩ | ⟨v, e, hp, hv, hm, hres, hlog, hpub⟩
    | ⟨v, hp, hv, hm, hok, hres, hlog, hpub⟩ <;>
    refine ⟨?_, ?_, ?_⟩ <;> simp_all

/-- Witness for C9: with a failing spawn on an otherwise publishable
workspace, the disk text is restored and nothing is recorded as
published. -/
theorem publish_restores_manifest_witness :
    (publishState ⟨fun _ _ => false, fun _ => none, false, [], false, false⟩
        ⟨"pkg-a", some ⟨1, 0, 0⟩, false, false, false, [], some "{}", "{}"⟩).disk
      = some "{}"
    ∧ (publishState ⟨fun _ _ => false, fun _ => none, false, [], false, false⟩
        ⟨"pkg-a", some ⟨1, 0, 0⟩, false, false, false, [], some "{}", "{}"⟩).published
      = false :=
  ⟨(publish_restores_manifest
      ⟨fun _ _ => false, fun _ => none, false, [], false, false⟩
      ⟨"pkg-a", some ⟨1, 0, 0⟩, false, false, false, [], some "{}", "{}"⟩).1,
   ((publish_restores_manifest
      ⟨fun _ _ => false, fun _ => none, false, [], false, false⟩
      ⟨"pkg-a", some ⟨1, 0, 0⟩, false, false, false, [], some "{}", "{}"⟩).2.2 rfl).1⟩

/-- Counterexample for C3: a runtime dependency entry on an in-repo
workspace that is **private** and whose version `2.0.0` does not
satisfy the range `^1.0.0` does not return normally — the private check
precedes the range check, so `validateDependency` throws
`dependency "pkg-a" is private` even though the entry would be
external. -/
theorem publish_dep_unsatisfied_private_counterexample :
    semverSatisfies ⟨2, 0, 0⟩ "^1.0.0" = false
    ∧ validateDependency
        ⟨fun _ _ => false, fun _ => none, false, [], false, true⟩
        ⟨"dependencies", "pkg-a", .npm "pkg-a" "^1.0.0",
          ⟨"pkg-a", some ⟨2, 0, 0⟩, true, false, none⟩⟩
      = .error "dependency \"pkg-a\" is private" := by
  constructor
  · rfl
  · rfl

/-- **C3 (amended)**: for a non-dev dependency entry on an in-repo
workspace that is versioned and not private, an npm semver range not
satisfied by that workspace's version is treated as external and
raises no error (`validateDependency` returns normally), while a
wildcard range (`*`/`x`) always resolves as local (never takes an
external outcome). -/
theorem publish_dep_unsatisfied_external (env : PublishEnv)
    (link : WorkspaceLink) (nm range : String) (v : Semver)
    (htype : link.type ≠ "devDependencies")
    (hspec : link.spec = .npm nm range)
    (hver : link.dependency.version = some v)
    (hpriv : link.dependency.isPrivate = false) :
    (semverSatisfies v range = false →
      validateDependency env link = .ok .externalUnsatisfiedRange)
    ∧ ((range = "*" ∨ range = "x") →
      ∀ o, validateDependency env link = .ok o → o.isExternal = false) := by
  constructor
  · intro hsat
    simp [validateDependency, htype, hspec, hver, hpriv, hsat]
  · intro hwild o h
    have hsat : semverSatisfies v range = true := by
      rcases hwild with h1 | h1 <;> simp [semverSatisfies, h1]
    have hmv : ¬(range ≠ "*" ∧ range ≠ "x" ∧ semverMinVersion range ≠ some v) := by
      rcases hwild with h1 | h1 <;> simp [h1]
    simp [validateDependency, htype, hspec, hver, hpriv, hsat, hmv] at h
    repeat' split at h
    all_goals try simp_all [DepOutcome.isExternal]
    all_goals (cases h; rfl)

/-- Witness for C3 (amended): a concrete non-private versioned
dependency whose version `1.0.0` misses the range `^2.0.0` yields the
external (normal-return) outcome. -/
theorem publish_dep_unsatisfied_external_witness :
    validateDependency
        ⟨fun _ _ => false, fun _ => none, false, [], false, true⟩
        ⟨"dependencies", "pkg-b", .npm "pkg-b" "^2.0.0",
          ⟨"pkg-b", some ⟨1, 0, 0⟩, false, false, none⟩⟩
      = .ok .externalUnsatisfiedRange :=
  (publish_dep_unsatisfied_external
      ⟨fun _ _ => false, fun _ => none, false, [], false, true⟩
      ⟨"dependencies", "pkg-b", .npm "pkg-b" "^2.0.0",
        ⟨"pkg-b", some ⟨1, 0, 0⟩, false, false, none⟩⟩
      "pkg-b" "^2.0.0" ⟨1, 0, 0⟩ (by decide) rfl rfl rfl).1 (by decide)

end Monox

namespace Monox

/-! ## Theorems for C4, C6 -/

/-- Helper: with `--fix` off, one `runEach` step records the status
determined by the workspace alone and only accumulates the `isFailed`
flag. -/
lemma runEach_no_fix (st : DepCheckState) (w : DepCheckWorkspace) :
    runEach false st w
      = (depCheckStatusNoFix w, { st with isFailed := st.isFailed || depCheckFails w }) := by
  by_cases h1 : w.isSelected = false
  · simp [runEach, depCheckEach, depCheckStatusNoFix, depCheckFails, h1]
  · have h1' : w.isSelected = true := by simpa using h1
    by_cases h2 : w.declaredDependencies.isEmpty
    · simp [runEach, depCheckEach, depCheckStatusNoFix, depCheckFails, h1', h2]
    · by_cases h3 : w.unusedAfterScan.isEmpty
      · simp [runEach, depCheckEach, depCheckStatusNoFix, depCheckFails, h1', h2, h3]
      · simp [runEach, depCheckEach, depCheckStatusNoFix, depCheckFails, h1', h2, h3]

/-- Helper: with `--fix` off, running all workspaces records every
workspace's own status and ORs the per-workspace failure conditions
into `isFailed`, leaving the chain and the exit code untouched. -/
lemma runEachAll_no_fix (ws : List DepCheckWorkspace) :
    ∀ st : DepCheckState,
      runEachAll false st ws
        = (ws.map depCheckStatusNoFix,
           { st with isFailed := st.isFailed || ws.any depCheckFails }) := by
  induction ws with
  | nil => intro st; simp [runEachAll]
  | cons w rest ih =>
    intro st
    simp [runEachAll, runEach_no_fix, ih, Bool.or_assoc]

/-- **C4**: in the dependency-check command without `--fix`, a
workspace with unused dependencies gets status `failure` and raises the
module-level `isFailed` flag while its action returns normally (no
exception); every workspace's recorded status is a function of that
workspace alone, so other selected workspaces still run; the exit code
stays 0 throughout the `each` phase, and only the `after` hook sets it
to 1 when some workspace failed, leaving it untouched otherwise. -/
theorem depcheck_no_fix_isolation (ws : List DepCheckWorkspace) :
    (runEachAll false ⟨[], false, 0⟩ ws).1 = ws.map depCheckStatusNoFix
    ∧ (∀ (st : DepCheckState) (w : DepCheckWorkspace),
        w.isSelected = true → w.declaredDependencies ≠ [] → w.unusedAfterScan ≠ [] →
        depCheckEach false st w
          = (.ok (), some ("failure", none), { st with isFailed := true }))
    ∧ (runEachAll false ⟨[], false, 0⟩ ws).2.isFailed = ws.any depCheckFails
    ∧ (runEachAll false ⟨[], false, 0⟩ ws).2.exitCode = 0
    ∧ (depCheckAfter (runEachAll false ⟨[], false, 0⟩ ws).2).exitCode
        = (if ws.any depCheckFails then 1 else 0) := by
  refine ⟨?_, ?_, ?_, ?_, ?_⟩
  · simp [runEachAll_no_fix]
  · intro st w h1 h2 h3
    simp [depCheckEach, h1, h2, h3]
  · simp [runEachAll_no_fix]
  · simp [runEachAll_no_fix]
  · simp only [runEachAll_no_fix, depCheckAfter]
    by_cases h : ws.any depCheckFails <;> simp [h]

/-- Witness for C4: a selected workspace with the unused dependency
`react` and no `--fix` ends with status `failure`, the flag raised, and
a normal (non-throwing) return. -/
theorem depcheck_no_fix_isolation_witness :
    depCheckEach false ⟨[], false, 0⟩
        ⟨"pkg-a", false, true, ["react"], ["react"], true⟩
      = (.ok (), some ("failure", none), ⟨[], true, 0⟩) :=
  (depcheck_no_fix_isolation []).2.1 ⟨[], false, 0⟩
    ⟨"pkg-a", false, true, ["react"], ["react"], true⟩ rfl (by decide) (by decide)

/-- Helper: chaining removals onto any promise with
`p.catch(() => {}).then(removal)` executes every removal, in chain
order, after whatever `p` executed — independently of the outcomes. -/
lemma execChain_npmUpdate_go (outcome : String → PResult) (ws : List String) :
    ∀ p : PromiseChain,
      (execChain outcome
        (ws.foldl (fun q w => .thenRemoval (.catchIgnore q) w) p)).1
        = (execChain outcome p).1 ++ ws := by
  induction ws with
  | nil => intro p; simp
  | cons w rest ih =>
    intro p
    simp only [List.foldl_cons]
    rw [ih]
    simp [execChain]

/-- Helper: every removal interval starts no earlier than the schedule
origin. -/
lemma removalIntervals_start_ge (dur : String → Nat) :
    ∀ (l : List String) (t : Nat), ∀ x ∈ removalIntervals dur l t, t ≤ x.2.1 := by
  intro l
  induction l with
  | nil => simp [removalIntervals]
  | cons w rest ih =>
    intro t x hx
    simp only [removalIntervals, List.mem_cons] at hx
    rcases hx with rfl | hx
    · simp
    · exact le_trans (Nat.le_add_right t (dur w)) (ih (t + dur w) x hx)

/-- Helper: the sequential schedule of chained removals is pairwise
non-overlapping — every earlier removal settles before any later one
starts. -/
lemma removalIntervals_pairwise (dur : String → Nat) :
    ∀ (l : List String) (t : Nat),
      (removalIntervals dur l t).Pairwise (fun a b => a.2.2 ≤ b.2.1) := by
  intro l
  induction l with
  | nil => intro t; simp [removalIntervals]
  | cons w rest ih =>
    intro t
    simp only [removalIntervals]
    refine List.Pairwise.cons ?_ (ih (t + dur w))
    intro b hb
    exact removalIntervals_start_ge dur rest (t + dur w) b hb

/-- **C6**: under `--fix`, the npm-remove invocations of different
workspaces form one shared promise chain: they execute exactly once
each, in chain-extension order, for every assignment of outcomes — an
earlier removal's failure is swallowed by the interposed
`catch(() => {})` and never re-thrown into a later removal — and the
induced schedule (each removal starting when its predecessor settles)
has pairwise non-overlapping intervals, so no two removals run
concurrently. -/
theorem depcheck_npm_remove_serialized (arrivals : List String)
    (outcome : String → PResult) (dur : String → Nat) :
    (execChain outcome (npmUpdateChain arrivals)).1 = arrivals
    ∧ (removalIntervals dur (execChain outcome (npmUpdateChain arrivals)).1 0).Pairwise
        (fun a b => a.2.2 ≤ b.2.1) := by
  constructor
  · have h := execChain_npmUpdate_go outcome arrivals PromiseChain.start
    simpa [npmUpdateChain, execChain] using h
  · exact removalIntervals_pairwise dur _ 0

end Monox

namespace Monox

/-! ## Theorems for C2 -/

/-- **C2**: with no user-supplied workspace expressions and an empty
environment fallback, the CLI calls `select` with the single expression
`**`; that selection contains every non-root workspace, and contains
the root workspace iff `includeRootWorkspace` was enabled at collection
construction. -/
theorem cli_default_selection (optionExpressions : Option (List String))
    (envExpressions : List String) (includeRootWorkspace : Bool)
    (ws : List SelWorkspace)
    (hopt : optionExpressions = none) (henv : envExpressions = []) :
    cliSelectArgument (cliEffectiveExpressions optionExpressions envExpressions) = ["**"]
    ∧ (∀ w ∈ ws, w.isRoot = false →
        w ∈ selectWorkspaces includeRootWorkspace ws ["**"])
    ∧ (∀ w ∈ ws, w.isRoot = true →
        (w ∈ selectWorkspaces includeRootWorkspace ws ["**"]
          ↔ includeRootWorkspace = true)) := by
  refine ⟨?_, ?_, ?_⟩
  · simp [hopt, henv, cliEffectiveExpressions, cliSelectArgument]
  · intro w hw hroot
    simp [selectWorkspaces, exprMatches, hw, hroot]
  · intro w hw hroot
    simp [selectWorkspaces, exprMatches, hw, hroot]

/-- Witness for C2: the select argument defaults to `["**"]`, and a
concrete non-root workspace is selected by it while an excluded root is
not needed for it to match. -/
theorem cli_default_selection_witness :
    cliSelectArgument (cliEffectiveExpressions none []) = ["**"]
    ∧ (⟨"pkg-a", false, fun _ => false⟩ : SelWorkspace)
        ∈ selectWorkspaces false [⟨"pkg-a", false, fun _ => false⟩] ["**"] :=
  ⟨(cli_default_selection none [] false
      [⟨"pkg-a", false, fun _ => false⟩] rfl rfl).1,
   (cli_default_selection none [] false
      [⟨"pkg-a", false, fun _ => false⟩] rfl rfl).2.1
      ⟨"pkg-a", false, fun _ => false⟩ (by simp) rfl⟩

end Monox

namespace Monox

/-! ## Theorems for C5 -/

/-- Helper: anchor membership after a direct flag assignment. -/
lemma setFlag_anchor_mem (c : VersionCollection) (i : Nat) (b : Bool) (j : Nat) :
    (j ∈ (setFlag c i b).anchor) ↔ (if j = i then b = true else j ∈ c.anchor) := by
  by_cases hji : j = i
  · subst hji
    cases b
    · simp [setFlag]
    · by_cases hmem : j ∈ c.anchor <;> simp [setFlag, hmem]
  · cases b
    · simp [setFlag, hji]
    · by_cases hmem : i ∈ c.anchor <;> simp [setFlag, hmem, hji]

/-- Helper: anchor membership after the re-selection fold — a workspace
id found in the iterated list gets its flag recomputed from
`isModified` when it was selected in the snapshot, every other id keeps
its starting flag. -/
lemma versionPhase2_go (c1 : VersionCollection) :
    ∀ (ws : List VersionWorkspace)
      (acc : VersionCollection × List (Nat × String × Option String)) (j : Nat),
      (∀ w ∈ ws, w.gitDirty = false) →
      (ws.map VersionWorkspace.id).Nodup →
      ((j ∈ (ws.foldl (versionPhase2Step c1) acc).1.anchor) ↔
        (match ws.find? (fun x => x.id == j) with
         | some w => (isSelectedIn c1 j = true ∧ w.isModified = true)
                     ∨ (isSelectedIn c1 j = false ∧ j ∈ acc.1.anchor)
         | none => j ∈ acc.1.anchor)) := by
  intro ws
  induction ws with
  | nil => intro acc j _ _; simp
  | cons w rest ih =>
    intro acc j hclean hnodup
    have hcw : w.gitDirty = false := hclean w (by simp)
    have hcr : ∀ x ∈ rest, x.gitDirty = false := fun x hx => hclean x (by simp [hx])
    have hpair : (∀ x ∈ rest, ¬ x.id = w.id) ∧ (rest.map VersionWorkspace.id).Nodup := by
      simpa using hnodup
    have hnr : (rest.map VersionWorkspace.id).Nodup := hpair.2
    simp only [List.foldl_cons]
    rw [ih (versionPhase2Step c1 acc w) j hcr hnr]
    by_cases hid : w.id = j
    · have hnone : rest.find? (fun x => x.id == j) = none := by
        apply List.find?_eq_none.mpr
        intro x hx
        simp only [beq_iff_eq]
        intro hxj
        exact hpair.1 x hx (by rw [hxj, hid])
      have hfind : (w :: rest).find? (fun x => x.id == j) = some w := by
        simp [List.find?, hid]
      rw [hnone, hfind]
      subst hid
      by_cases hsel : isSelectedIn c1 w.id = true
      · by_cases hmod : w.isModified <;>
          simp [versionPhase2Step, hsel, hcw, hmod, setFlag_anchor_mem]
      · have hsel' : isSelectedIn c1 w.id = false := by simpa using hsel
        simp [versionPhase2Step, hsel']
    · have hfind : (w :: rest).find? (fun x => x.id == j)
          = rest.find? (fun x => x.id == j) := by
        simp only [List.find?]
        rw [show (w.id == j) = false by simp [hid]]
      rw [hfind]
      have hpres : (j ∈ (versionPhase2Step c1 acc w).1.anchor) ↔ j ∈ acc.1.anchor := by
        have hji : ¬ j = w.id := fun h => hid h.symm
        by_cases hsel : isSelectedIn c1 w.id = true
        · by_cases hmod : w.isModified <;>
            simp [versionPhase2Step, hsel, hcw, hmod, setFlag_anchor_mem, hji]
        · have hsel' : isSelectedIn c1 w.id = false := by simpa using hsel
          simp [versionPhase2Step, hsel']
      cases hf : rest.find? (fun x => x.id == j) with
      | none => simp [hpres]
      | some w' => simp [hpres]

/-- Helper: the statuses recorded by the re-selection fold are exactly
one `skipped`/`no modifications` entry per iterated unmodified
workspace, in order. -/
lemma versionPhase2_statuses_go (c1 : VersionCollection) :
    ∀ (ws : List VersionWorkspace)
      (acc : VersionCollection × List (Nat × String × Option String)),
      (∀ w ∈ ws, w.gitDirty = false) →
      ((ws.foldl (versionPhase2Step c1) acc).2
        = acc.2 ++ (ws.filter (fun w => isSelectedIn c1 w.id && !w.isModified)).map
            (fun w => (w.id, "skipped", some "no modifications"))) := by
  intro ws
  induction ws with
  | nil => intro acc _; simp
  | cons w rest ih =>
    intro acc hclean
    have hcw : w.gitDirty = false := hclean w (by simp)
    have hcr : ∀ x ∈ rest, x.gitDirty = false := fun x hx => hclean x (by simp [hx])
    simp only [List.foldl_cons]
    rw [ih _ hcr]
    by_cases hsel : isSelectedIn c1 w.id = true
    · by_cases hmod : w.isModified <;>
        simp [versionPhase2Step, hsel, hcw, hmod]
    · have hsel' : isSelectedIn c1 w.id = false := by simpa using hsel
      simp [versionPhase2Step, hsel']

/-- Helper: with distinct ids, searching the workspace list for a
member's id finds that member. -/
lemma find_id_of_nodup :
    ∀ (ws : List VersionWorkspace), (ws.map VersionWorkspace.id).Nodup →
      ∀ w ∈ ws, ws.find? (fun x => x.id == w.id) = some w := by
  intro ws
  induction ws with
  | nil => intro _ w hw; simp at hw
  | cons a rest ih =>
    intro hnodup w hw
    have hpair : (∀ x ∈ rest, ¬ x.id = a.id) ∧ (rest.map VersionWorkspace.id).Nodup := by
      simpa using hnodup
    rcases List.mem_cons.mp hw with rfl | hw'
    · simp [List.find?]
    · have haw : ¬ a.id = w.id := fun hEq => hpair.1 w hw' (by rw [hEq])
      have hrest : rest.find? (fun x => x.id == w.id) = some w := ih hpair.2 w hw'
      simp only [List.find?]
      rw [show (a.id == w.id) = false by simp [haw], hrest]

/-- **C5**: the version command first enables the dependents closure
over the current selection, then recomputes each iterated workspace's
`isSelected` flag from whether its manifest was modified (recording
status `skipped`/`no modifications` otherwise), and then disables both
closures — so the write phase iterates exactly the workspaces of the
dependents-expanded selection whose manifests were modified. -/
theorem version_reselect_write_phase (c0 : VersionCollection)
    (hnodup : (c0.workspaces.map VersionWorkspace.id).Nodup)
    (hclean : ∀ w ∈ c0.workspaces, w.gitDirty = false) :
    (includeDependents c0 true).includeDependentsOn = true
    ∧ (includeDependents c0 true).anchor = c0.anchor
    ∧ (versionCommandSelectionPhases c0).1.includeDependenciesOn = false
    ∧ (versionCommandSelectionPhases c0).1.includeDependentsOn = false
    ∧ (∀ w ∈ c0.workspaces,
        (isSelectedIn (versionCommandSelectionPhases c0).1 w.id = true
          ↔ (isSelectedIn (includeDependents c0 true) w.id = true
              ∧ w.isModified = true)))
    ∧ (∀ w ∈ c0.workspaces,
        ((w.id, "skipped", some "no modifications")
            ∈ (versionCommandSelectionPhases c0).2
          ↔ (isSelectedIn (includeDependents c0 true) w.id = true
              ∧ w.isModified = false))) := by
  refine ⟨rfl, rfl, rfl, rfl, ?_, ?_⟩
  · intro w hw
    have hgo := versionPhase2_go (includeDependents c0 true)
      (includeDependents c0 true).workspaces
      (includeDependents c0 true, []) w.id
      (fun x hx => hclean x hx) (by simpa using hnodup)
    have hfind := find_id_of_nodup (includeDependents c0 true).workspaces
      (by simpa using hnodup) w hw
    rw [hfind] at hgo
    have hsel3 : isSelectedIn (versionCommandSelectionPhases c0).1 w.id = true
        ↔ w.id ∈ (versionPhase2 (includeDependents c0 true)).1.anchor := by
      simp [versionCommandSelectionPhases, isSelectedIn, includeDependents,
        includeDependencies]
    rw [hsel3]
    rw [show (versionPhase2 (includeDependents c0 true)).1
        = ((includeDependents c0 true).workspaces.foldl
            (versionPhase2Step (includeDependents c0 true))
            (includeDependents c0 true, [])).1 from rfl]
    rw [hgo]
    constructor
    · rintro (⟨hs, hm⟩ | ⟨hs, hmem⟩)
      · exact ⟨hs, hm⟩
      · have : isSelectedIn (includeDependents c0 true) w.id = true := by
          simp [isSelectedIn, hmem]
        rw [this] at hs
        cases hs
    · intro hsm
      exact Or.inl hsm
  · intro w hw
    have hst := versionPhase2_statuses_go (includeDependents c0 true)
      (includeDependents c0 true).workspaces
      (includeDependents c0 true, [])
      (fun x hx => hclean x hx)
    have h2 : (versionCommandSelectionPhases c0).2
        = (versionPhase2 (includeDependents c0 true)).2 := rfl
    rw [h2]
    rw [show (versionPhase2 (includeDependents c0 true)).2
        = ((includeDependents c0 true).workspaces.foldl
            (versionPhase2Step (includeDependents c0 true))
            (includeDependents c0 true, [])).2 from rfl]
    rw [hst]
    simp only [List.nil_append, List.mem_map, List.mem_filter]
    constructor
    · rintro ⟨w', ⟨hw'mem, hcond⟩, heq⟩
      have hid : w'.id = w.id := by
        simpa using congrArg Prod.fst heq
      have hww : w' = w :=
        List.inj_on_of_nodup_map hnodup hw'mem hw hid
      subst hww
      simp only [Bool.and_eq_true, Bool.not_eq_true'] at hcond
      exact ⟨hcond.1, hcond.2⟩
    · intro hsm
      refine ⟨w, ⟨hw, ?_⟩, rfl⟩
      simp [hsm.1, hsm.2]

/-- Witness for C5: in a two-workspace collection where only workspace
0 is anchored and modified, it remains selected for the write phase. -/
theorem version_reselect_write_phase_witness :
    isSelectedIn
        (versionCommandSelectionPhases
          ⟨[⟨0, true, false⟩, ⟨1, false, false⟩], [0],
            fun _ => [], fun i => if i = 0 then [1] else [], false, false⟩).1 0 = true
      ↔ (isSelectedIn
          (includeDependents
            ⟨[⟨0, true, false⟩, ⟨1, false, false⟩], [0],
              fun _ => [], fun i => if i = 0 then [1] else [], false, false⟩ true) 0 = true
          ∧ (⟨0, true, false⟩ : VersionWorkspace).isModified = true) :=
  (version_reselect_write_phase
    ⟨[⟨0, true, false⟩, ⟨1, false, false⟩], [0],
      fun _ => [], fun i => if i = 0 then [1] else [], false, false⟩
    (by decide) (by decide)).2.2.2.2.1
    ⟨0, true, false⟩ (by decide)

end Monox
